import Mathlib

/-!
Verification development for the Quran audio scraper download engine.

Shallow embedding of the orchestration core found in `src/downloader.py`,
`src/utils.py` and `src/constants.py`:

* `generateAudioURL` embeds `utils.generate_audio_url` together with
  `constants.AUDIO_URL_TEMPLATE` and `constants.SURAH_FOLDER_MAPPING`;
* `getAudioFilePath` embeds `utils.get_audio_file_path` /
  `QuranAudioDownloader._get_file_path` (the two are textually identical);
* `downloadAudioAsync` embeds `utils.download_audio_async`, with the HTTP
  response abstracted as an `AttemptOutcome` value and the file write made
  explicit in the return value;
* `downloadWordWithRetry` embeds `QuranAudioDownloader._download_word_with_retry`;
* `saveDownloadState` / `loadDownloadState` embed
  `QuranAudioDownloader._save_download_state` / `_load_download_state`, with
  the on-disk JSON files modelled as a map from chapter id to record;
* `ayahWordMapping` embeds `QuranAudioDownloader._get_ayah_word_mapping`;
* `planTotal`, `runWords`, `runVerses` and `downloadWordByWord` embed the
  planning loop and the verse/word loops of
  `QuranAudioDownloader.download_word_by_word`.

Python `Optional[int]` arguments are modelled as `Option Nat`; Python
truthiness of such a value (`if word_id:`) is `pyTruthy`, and Python `==`
against a possibly-`None` value is `pyEq`.  A Python `TypeError` raised by
arithmetic on `None` (which `download_word_by_word` hits when a boundary
word bound is unset while the matching verse bound is set) is modelled by
propagating `none` through the run, so the whole orchestration returns an
`Option WordResult`: `none` means the Python call raised instead of
returning a result dictionary.

Network and filesystem are oracles: `fetch v w` gives the outcome of
`_download_word_with_retry` for verse `v`, word `w`, and `fs v w` gives the
size of the file at the computed path for `(v, w)` (`none` = absent).  The
`fetched` field of `RunState` records every (verse, word) pair for which a
network request was issued, in order.
-/

/-- Python truthiness of an `Optional[int]`: `None` and `0` are falsy. -/
def pyTruthy : Option Nat → Bool
  | none => false
  | some n => n != 0

/-- Python `v == o` where `v` is an `int` and `o` an `Optional[int]`:
comparison with `None` is `False`. -/
def pyEq (v : Nat) : Option Nat → Bool
  | none => false
  | some n => v == n

/-- Python `"%03d" % n` (equivalently `f"{n:03d}"`) for a nonnegative `n`. -/
def pad3 (n : Nat) : String :=
  if n < 10 then "00" ++ toString n
  else if n < 100 then "0" ++ toString n
  else toString n

/-- Embeds the name sanitisation in `utils.get_surah_folder_name` /
`_get_surah_folder_name`: `.replace(' ', '_').replace("'", '').replace('-', '_')`.
The three replacements act on distinct single characters, so they are one
character-wise pass. -/
def sanitizeSurahName (name : String) : String :=
  String.mk (name.toList.filterMap fun ch =>
    if ch = ' ' then some '_'
    else if ch = '\'' then none
    else if ch = '-' then some '_'
    else some ch)

/-- Embeds `utils.get_surah_folder_name`: `f"{surah_id:03d}_{sanitized}"`. -/
def surahFolderName (surah_id : Nat) (name : String) : String :=
  pad3 surah_id ++ "_" ++ sanitizeSurahName name

/-- The filename chosen by `utils.get_audio_file_path` / `_get_file_path`:
`if word_id:` selects the word-mode name, else the verse-mode name.  The
branch condition is Python truthiness of `word_id`, not its presence. -/
def audioFileName (surah_id verse_id : Nat) (word_id : Option Nat) : String :=
  if pyTruthy word_id then
    pad3 surah_id ++ "_" ++ pad3 verse_id ++ "_" ++ pad3 (word_id.getD 0) ++ ".mp3"
  else
    pad3 surah_id ++ "_" ++ pad3 verse_id ++ "_verse.mp3"

/-- Embeds `utils.get_audio_file_path` (and the identical
`QuranAudioDownloader._get_file_path`); `os.path.join` is `/`-concatenation
here.  The `os.makedirs` side effect has no bearing on the returned path. -/
def getAudioFilePath (downloadDir : String) (surah_id : Nat) (name : String)
    (verse_id : Nat) (word_id : Option Nat) : String :=
  downloadDir ++ "/" ++ surahFolderName surah_id name ++ "/" ++
    audioFileName surah_id verse_id word_id

/-- Embeds `constants.SURAH_FOLDER_MAPPING`, which is the empty dict in the
source (`SURAH_FOLDER_MAPPING = {}`). -/
def SURAH_FOLDER_MAPPING : List (Nat × Nat) := []

/-- Embeds `constants.AUDIO_URL_TEMPLATE` applied with `.format`:
`"https://audios.quranwbw.com/words/{folder_id}/{surah_id:03d}_{ayah_id:03d}_{word_id:03d}.mp3"`.
`{folder_id}` carries no format spec, so it is rendered unpadded. -/
def formatAudioURL (folder_id surah_id ayah_id word_id : Nat) : String :=
  "https://audios.quranwbw.com/words/" ++ toString folder_id ++ "/" ++
    pad3 surah_id ++ "_" ++ pad3 ayah_id ++ "_" ++ pad3 word_id ++ ".mp3"

/-- Embeds `utils.generate_audio_url`: the source sets `folder_id = surah_id`
unconditionally and never consults `SURAH_FOLDER_MAPPING`. -/
def generateAudioURL (surah_id ayah_id word_id : Nat) : String :=
  let folder_id := surah_id
  formatAudioURL folder_id surah_id ayah_id word_id

/-- One HTTP attempt as observed by `utils.download_audio_async`: either a
response with a status code and a fully-read body, or a transport error
(`aiohttp.ClientError`, timeout, or a failure while reading the body —
all of which the source catches before any file write). -/
inductive AttemptOutcome where
  | response (status : Nat) (body : List Nat)
  | transportError
  deriving DecidableEq

/-- Embeds `utils.download_audio_async`.  Returns the `(success, size)` pair
the Python function returns, paired with the body written to `file_path`
(`none` = no write).  The source reads the whole body into memory before
opening the file, and both `except` clauses return `(False, 0)`, so the
function never raises and never writes on a failure path. -/
def downloadAudioAsync (r : AttemptOutcome) : (Bool × Nat) × Option (List Nat) :=
  match r with
  | .response status body =>
    if status = 200 then ((true, body.length), some body)
    else if status = 404 then ((false, 0), none)
    else ((false, 0), none)
  | .transportError => ((false, 0), none)

/-- The attempt loop of `QuranAudioDownloader._download_word_with_retry`:
`for attempt in range(max_retries)` with the body
`success, size = await download_audio_async(...); if success: return True, size
else: return False, 0`.  Because `download_audio_async` catches every
exception internally and returns `(False, 0)`, the `except` branch of the
loop (which would sleep one second and retry) is unreachable, and the body
returns on its first iteration.  The second component counts the attempts
(network fetches) actually issued. -/
def retryLoop (oracle : Nat → AttemptOutcome) : Nat → Nat → (Bool × Nat) × Nat
  | 0, i => ((false, 0), i)
  | _ + 1, i =>
    let a := downloadAudioAsync (oracle i)
    if a.1.1 then ((true, a.1.2), i + 1)
    else ((false, 0), i + 1)

/-- Embeds `QuranAudioDownloader._download_word_with_retry` with
`max_retries = 3` as in the source default and `constants.MAX_RETRIES`.
`oracle i` is the outcome attempt `i` would observe. -/
def downloadWordWithRetry (oracle : Nat → AttemptOutcome)
    (max_retries : Nat := 3) : (Bool × Nat) × Nat :=
  retryLoop oracle max_retries 0

/-- The resume-state record `{'surah_id': ..., 'last_verse': ..., 'last_word': ...}`
of `_save_download_state` / `_load_download_state`.  `last_word` is `None`
(here `none`) when the state was saved without a word id; the wall-clock
`timestamp` field is not modelled.  JSON serialisation round-trips these
fields exactly. -/
structure ResumeState where
  surah_id : Nat
  last_verse : Nat
  last_word : Option Nat
  deriving DecidableEq

/-- The collection of `download_state_{surah_id}.json` files under the
download root, keyed by chapter id. -/
def StateStore : Type := Nat → Option ResumeState

/-- Embeds `QuranAudioDownloader._save_download_state`: overwrites the
chapter's state file with the current position. -/
def saveDownloadState (store : StateStore) (surah_id verse_id : Nat)
    (word_id : Option Nat) : StateStore :=
  fun c => if c = surah_id then some ⟨surah_id, verse_id, word_id⟩ else store c

/-- Embeds `QuranAudioDownloader._load_download_state`: returns the stored
record, or the default `{'surah_id': surah_id, 'last_verse': 0, 'last_word': 0}`
when the file is missing (or unreadable). -/
def loadDownloadState (store : StateStore) (surah_id : Nat) : ResumeState :=
  match store surah_id with
  | some st => st
  | none => ⟨surah_id, 0, some 0⟩

/-- A catalog entry as the source consumes it: `quran_data.json` records, per
surah, `surah_id`, names, `ayah_range = [ayahLo, ayahHi]` and
`word_range = [wordLo, wordHi]`.  No per-verse word-count table exists in the
source's catalog. -/
structure Surah where
  surah_id : Nat
  ayahLo : Nat
  ayahHi : Nat
  wordLo : Nat
  wordHi : Nat
  deriving DecidableEq

/-- `total_ayahs = ayah_range[1] - ayah_range[0] + 1`. -/
def totalAyahs (s : Surah) : Nat := s.ayahHi - s.ayahLo + 1

/-- `total_words = word_range[1] - word_range[0] + 1`. -/
def totalWords (s : Surah) : Nat := s.wordHi - s.wordLo + 1

/-- `words_per_ayah = total_words // total_ayahs` — the approximate
per-verse word count of `_get_ayah_word_mapping`. -/
def wordsPerAyah (s : Surah) : Nat := totalWords s / totalAyahs s

/-- `range(ayah_range[0], ayah_range[1] + 1)` as a list; empty when the
range is inverted, exactly like the Python `range`. -/
def ayahList (s : Surah) : List Nat :=
  if s.ayahLo ≤ s.ayahHi then List.range' s.ayahLo (totalAyahs s) else []

/-- Embeds `QuranAudioDownloader._get_ayah_word_mapping`: every ayah gets
`words_per_ayah` words except the last, which gets all remaining words.
The dict iterates in insertion order, i.e. ascending ayah ids. -/
def ayahWordMapping (s : Surah) : List (Nat × Nat) :=
  (ayahList s).map fun a =>
    (a, if a = s.ayahHi then totalWords s - wordsPerAyah s * (totalAyahs s - 1)
        else wordsPerAyah s)

/-- `if start_verse and verse_id < start_verse: continue`. -/
def skipLow (sv : Option Nat) (v : Nat) : Bool :=
  match sv with
  | none => false
  | some n => n != 0 && decide (v < n)

/-- `if end_verse and verse_id > end_verse:` (`continue` in the planning
loop, `break` in the execution loop). -/
def skipHigh (ev : Option Nat) (v : Nat) : Bool :=
  match ev with
  | none => false
  | some n => n != 0 && decide (n < v)

/-- `verse_start_word = start_word if verse_id == start_verse else 1`. -/
def verseStartWord (sv sw : Option Nat) (v : Nat) : Option Nat :=
  if pyEq v sv then sw else some 1

/-- `verse_end_word = end_word if verse_id == end_verse else word_count`. -/
def verseEndWord (ev ew : Option Nat) (v : Nat) (wc : Nat) : Option Nat :=
  if pyEq v ev then ew else some wc

/-- One verse's contribution `max(0, verse_end_word - verse_start_word + 1)`
to the planned total; `none` models the `TypeError` Python raises when the
subtraction meets a `None` bound. -/
def planVerse (sv ev sw ew : Option Nat) (v wc : Nat) : Option Nat :=
  match verseStartWord sv sw v, verseEndWord ev ew v wc with
  | some a, some b => some (b + 1 - a)
  | _, _ => none

/-- The planning loop of `download_word_by_word` (lines computing
`total_files`): skips verses outside the requested range and sums the
per-verse contributions; `none` models the run dying with `TypeError`. -/
def planTotal (sv ev sw ew : Option Nat) : List (Nat × Nat) → Option Nat
  | [] => some 0
  | (v, wc) :: rest =>
    if skipLow sv v || skipHigh ev v then planTotal sv ev sw ew rest
    else
      match planVerse sv ev sw ew v wc with
      | some k => (planTotal sv ev sw ew rest).map (k + ·)
      | none => none

/-- Aggregate companion state of the execution loops of
`download_word_by_word`: `successful_downloads`, `failed_downloads`,
`total_size`, the trace of network requests issued (ghost instrumentation),
and whether any verse's word loop was broken out of by the
consecutive-not-found policy (ghost instrumentation of the `break`). -/
structure RunState where
  successful : Nat
  failed : Nat
  totalSize : Nat
  fetched : List (Nat × Nat)
  shortCircuited : Bool
  deriving DecidableEq

/-- The fresh counters at the start of `download_word_by_word`. -/
def initRunState : RunState := ⟨0, 0, 0, [], false⟩

/-- `_check_file_exists` plus the subsequent `os.path.getsize`: the size of
an existing, non-empty file at the path computed for `(verse, word)`, else
`none`. -/
def existingSize (fs : Nat → Nat → Option Nat) (v w : Nat) : Option Nat :=
  match fs v w with
  | some sz => if 0 < sz then some sz else none
  | none => none

/-- The word loop of `download_word_by_word` for one verse (lines 227-277).
`c404` is `consecutive_404s`, reset to `0` on an existence skip and on a
successful download, incremented on a failure; when it reaches
`max_consecutive_404s = 5` the loop `break`s.  `fetch v w` is the
`(success, size)` pair `_download_word_with_retry` returns for that word. -/
def runWords (fetch : Nat → Nat → Bool × Nat) (fs : Nat → Nat → Option Nat)
    (v : Nat) : List Nat → Nat → RunState → RunState
  | [], _, st => st
  | w :: ws, c404, st =>
    match existingSize fs v w with
    | some sz =>
      runWords fetch fs v ws 0
        ⟨st.successful + 1, st.failed, st.totalSize + sz, st.fetched, st.shortCircuited⟩
    | none =>
      if (fetch v w).1 then
        runWords fetch fs v ws 0
          ⟨st.successful + 1, st.failed, st.totalSize + (fetch v w).2,
           st.fetched ++ [(v, w)], st.shortCircuited⟩
      else if 5 ≤ c404 + 1 then
        ⟨st.successful, st.failed + 1, st.totalSize, st.fetched ++ [(v, w)], true⟩
      else
        runWords fetch fs v ws (c404 + 1)
          ⟨st.successful, st.failed + 1, st.totalSize, st.fetched ++ [(v, w)],
           st.shortCircuited⟩

/-- The verse loop of `download_word_by_word` (lines 212-277): verses below
the start are skipped (`continue`), the first verse above the end stops the
loop (`break`), and each processed verse runs its word loop over
`range(verse_start_word, verse_end_word + 1)` with the consecutive counter
reset to `0`.  `none` models the `TypeError` on a `None` word bound. -/
def runVerses (fetch : Nat → Nat → Bool × Nat) (fs : Nat → Nat → Option Nat)
    (sv ev sw ew : Option Nat) : List (Nat × Nat) → RunState → Option RunState
  | [], st => some st
  | (v, wc) :: rest, st =>
    if skipLow sv v then runVerses fetch fs sv ev sw ew rest st
    else if skipHigh ev v then some st
    else
      match verseStartWord sv sw v, verseEndWord ev ew v wc with
      | some a, some b =>
        runVerses fetch fs sv ev sw ew rest
          (runWords fetch fs v (List.range' a (b + 1 - a)) 0 st)
      | _, _ => none

/-- The result dictionary `download_word_by_word` returns (the fields the
claims speak about; `success` is the constant `True` of the source, and the
two ghost fields are carried over from `RunState`). -/
structure WordResult where
  success : Bool
  total_files : Nat
  successful_downloads : Nat
  failed_downloads : Nat
  total_size : Nat
  fetched : List (Nat × Nat)
  shortCircuited : Bool
  deriving DecidableEq

/-- Embeds `QuranAudioDownloader.download_word_by_word` (without the
progress callbacks, logging, and end-of-run state-file cleanup, none of
which feed back into the returned dictionary).  Resume handling mirrors
lines 173-178: with `resume` set, an unset `start_verse` is replaced by the
stored `last_verse` and an unset `start_word` by a truthy stored
`last_word`.  Returns `none` when the Python call raises
(`ValueError` on an empty mapping, or `TypeError` on a `None` word bound
for a boundary verse). -/
def downloadWordByWord (fetch : Nat → Nat → Bool × Nat)
    (fs : Nat → Nat → Option Nat) (store : StateStore) (s : Surah)
    (start_verse end_verse start_word end_word : Option Nat)
    (resume : Bool) : Option WordResult :=
  let state := loadDownloadState store s.surah_id
  let sv := if resume && start_verse.isNone then some state.last_verse else start_verse
  let sw := if resume && start_word.isNone && pyTruthy state.last_word
            then state.last_word else start_word
  let mapping := ayahWordMapping s
  if mapping.isEmpty then none
  else
    match planTotal sv end_verse sw end_word mapping with
    | none => none
    | some total =>
      match runVerses fetch fs sv end_verse sw end_word mapping initRunState with
      | none => none
      | some st =>
        some ⟨true, total, st.successful, st.failed, st.totalSize,
              st.fetched, st.shortCircuited⟩

/-- Modelled from the spec: the catalog's exact per-verse word-count table
(`verses: ordered sequence of {verse_id, word_count_in_verse}`, spec §3) is
absent from the source; this is the spec §4.4 Planning rule computed over
such a table — sum, over the verses of the requested range, of the verse's
effective word count, explicit word bounds applying only at the boundary
verses. -/
def specExactTotal (verses : List (Nat × Nat)) (sv ev sw ew : Nat) : Nat :=
  ((verses.filter fun p => decide (sv ≤ p.1) && decide (p.1 ≤ ev)).map fun p =>
    (if p.1 = ev then ew else p.2) + 1 - (if p.1 = sv then sw else 1)).sum

/-! ## Helper lemmas and claim theorems -/

/-- Claim C7: saving the resume state for a chapter and then loading it for
the same chapter returns the same `last_verse` and `last_word` values, for
every chapter id, position and prior store contents (no intervening clear
or second save). -/
theorem c7_round_trip (store : StateStore) (c v : Nat) (w : Option Nat) :
    (loadDownloadState (saveDownloadState store c v w) c).last_verse = v ∧
    (loadDownloadState (saveDownloadState store c v w) c).last_word = w := by
  constructor <;> simp [loadDownloadState, saveDownloadState]

/-- Claim C10: calling the local path builder with `word_id = 0` produces
the verse-mode filename, identical to calling it with `word_id` omitted
(`None`), because the word/verse distinction is Python truthiness of
`word_id`; so `word_id = 0` always addresses the verse-mode file. -/
theorem c10_word_id_zero (dir : String) (sid : Nat) (name : String) (v : Nat) :
    getAudioFilePath dir sid name v (some 0) = getAudioFilePath dir sid name v none ∧
    audioFileName sid v (some 0) = pad3 sid ++ "_" ++ pad3 v ++ "_verse.mp3" := by
  constructor <;> simp [getAudioFilePath, audioFileName, pyTruthy]

/-- Claim C8 counterexample: the claim asserts the folder id in the URL is a
remote folder identifier taken from the catalog and "not always equal to the
chapter ID".  In the source the catalog folder mapping is empty and
`generate_audio_url` sets the folder to the chapter id itself, so the folder
id always equals the chapter id. -/
theorem c8_counterexample :
    SURAH_FOLDER_MAPPING = [] ∧
    generateAudioURL = (fun c a w => formatAudioURL c c a w) ∧
    generateAudioURL 36 1 1 = "https://audios.quranwbw.com/words/36/036_001_001.mp3" ∧
    generateAudioURL 114 6 2 = "https://audios.quranwbw.com/words/114/114_006_002.mp3" :=
  ⟨rfl, rfl, rfl, rfl⟩

/-- Claim C8 (amended): the remote URL for a (chapter, verse, word) triple
follows the template with the chapter id zero-padded in the filename and the
folder component always equal to the chapter id itself (unpadded);
`SURAH_FOLDER_MAPPING` is empty and is never consulted. -/
theorem c8_amended (c a w : Nat) :
    generateAudioURL c a w =
      "https://audios.quranwbw.com/words/" ++ toString c ++ "/" ++
        pad3 c ++ "_" ++ pad3 a ++ "_" ++ pad3 w ++ ".mp3" ∧
    SURAH_FOLDER_MAPPING.length = 0 :=
  ⟨rfl, rfl⟩

/-- Claim C6: `download_audio_async` writes to the destination path exactly
when the HTTP status is 200, returning the number of bytes written; on a
404, any other status, or a transport error it returns `(False, 0)` and
performs no write at all (so no partial, zero-byte or truncated file). -/
theorem c6_fetch_one (r : AttemptOutcome) :
    ((downloadAudioAsync r).2.isSome ↔ ∃ b, r = .response 200 b) ∧
    (∀ b, r = .response 200 b → downloadAudioAsync r = ((true, b.length), some b)) ∧
    (∀ c b, r = .response c b → c ≠ 200 → downloadAudioAsync r = ((false, 0), none)) ∧
    (r = .transportError → downloadAudioAsync r = ((false, 0), none)) := by
  rcases r with ⟨st, b⟩ | _
  · by_cases h : st = 200
    · subst h
      simp [downloadAudioAsync]
    · simp [downloadAudioAsync, h]
  · simp [downloadAudioAsync]

/-- Claim C6 witness: concrete evaluations through the theorem. -/
theorem c6_fetch_one_witness :
    downloadAudioAsync (.response 200 [7, 7]) = ((true, 2), some [7, 7]) ∧
    downloadAudioAsync (.response 500 []) = ((false, 0), none) ∧
    downloadAudioAsync .transportError = ((false, 0), none) :=
  ⟨(c6_fetch_one _).2.1 [7, 7] rfl,
   (c6_fetch_one _).2.2.1 500 [] rfl (by decide),
   (c6_fetch_one _).2.2.2 rfl⟩

/-- Claim C3: the claim says `_download_word_with_retry` retries transport
errors and non-200-non-404 statuses up to 3 attempts with backoff and only
404 is authoritative.  In the source, `download_audio_async` converts every
failure — 404, other status, or exception — into a `(False, 0)` return, so
the retry branch is dead: exactly one attempt is ever issued, and a first
transport error yields failure even when a second attempt would succeed. -/
theorem c3_no_retry :
    (∀ oracle : Nat → AttemptOutcome, (downloadWordWithRetry oracle 3).2 = 1) ∧
    downloadWordWithRetry
      (fun i => if i = 0 then AttemptOutcome.transportError else .response 200 [1, 2, 3]) 3
      = ((false, 0), 1) := by
  constructor
  · intro oracle
    by_cases h : (downloadAudioAsync (oracle 0)).1.1 <;>
      simp [downloadWordWithRetry, retryLoop, h]
  · decide

/-- The word loop never clears the short-circuit marker. -/
theorem runWords_sc_mono (fetch : Nat → Nat → Bool × Nat)
    (fs : Nat → Nat → Option Nat) (v : Nat) :
    ∀ (ws : List Nat) (c : Nat) (st : RunState), st.shortCircuited = true →
      (runWords fetch fs v ws c st).shortCircuited = true := by
  intro ws
  induction ws with
  | nil => intro c st h; simpa [runWords] using h
  | cons w ws ih =>
    intro c st h
    simp only [runWords]
    split
    · exact ih 0 _ h
    · split
      · exact ih 0 _ h
      · split
        · rfl
        · exact ih (c + 1) _ h

/-- Each processed word adds exactly one to `successful + failed`, so the
word loop adds at most the number of words in the verse range. -/
theorem runWords_sum_le (fetch : Nat → Nat → Bool × Nat)
    (fs : Nat → Nat → Option Nat) (v : Nat) :
    ∀ (ws : List Nat) (c : Nat) (st : RunState),
      (runWords fetch fs v ws c st).successful + (runWords fetch fs v ws c st).failed ≤
        st.successful + st.failed + ws.length := by
  intro ws
  induction ws with
  | nil => intro c st; simp [runWords]
  | cons w ws ih =>
    intro c st
    simp only [runWords, List.length_cons]
    split
    · exact (ih 0 _).trans
        (by show st.successful + 1 + st.failed + ws.length ≤
              st.successful + st.failed + (ws.length + 1); omega)
    · split
      · exact (ih 0 _).trans
          (by show st.successful + 1 + st.failed + ws.length ≤
                st.successful + st.failed + (ws.length + 1); omega)
      · split
        · show st.successful + (st.failed + 1) ≤ st.successful + st.failed + (ws.length + 1)
          omega
        · exact (ih (c + 1) _).trans
            (by show st.successful + (st.failed + 1) + ws.length ≤
                  st.successful + st.failed + (ws.length + 1); omega)

/-- When the word loop was not broken out of, every word of the range was
accounted for: `successful + failed` grows by exactly the range length. -/
theorem runWords_sum_of_no_sc (fetch : Nat → Nat → Bool × Nat)
    (fs : Nat → Nat → Option Nat) (v : Nat) :
    ∀ (ws : List Nat) (c : Nat) (st : RunState),
      (runWords fetch fs v ws c st).shortCircuited = false →
      (runWords fetch fs v ws c st).successful + (runWords fetch fs v ws c st).failed =
        st.successful + st.failed + ws.length := by
  intro ws
  induction ws with
  | nil => intro c st _; simp [runWords]
  | cons w ws ih =>
    intro c st h
    simp only [runWords, List.length_cons] at h ⊢
    revert h
    split
    · intro h
      rw [ih 0 _ h]
      show st.successful + 1 + st.failed + ws.length =
        st.successful + st.failed + (ws.length + 1)
      omega
    · split
      · intro h
        rw [ih 0 _ h]
        show st.successful + 1 + st.failed + ws.length =
          st.successful + st.failed + (ws.length + 1)
        omega
      · split
        · intro h
          simp at h
        · intro h
          rw [ih (c + 1) _ h]
          show st.successful + (st.failed + 1) + ws.length =
            st.successful + st.failed + (ws.length + 1)
          omega

/-- The word loop only appends to the fetch trace. -/
theorem runWords_fetched_mono (fetch : Nat → Nat → Bool × Nat)
    (fs : Nat → Nat → Option Nat) (v : Nat) :
    ∀ (ws : List Nat) (c : Nat) (st : RunState) (p : Nat × Nat),
      p ∈ st.fetched → p ∈ (runWords fetch fs v ws c st).fetched := by
  intro ws
  induction ws with
  | nil => intro c st p h; simpa [runWords] using h
  | cons w ws ih =>
    intro c st p h
    simp only [runWords]
    split
    · exact ih 0 _ p h
    · split
      · exact ih 0 _ p (List.mem_append_left _ h)
      · split
        · show p ∈ st.fetched ++ [(v, w)]
          exact List.mem_append_left _ h
        · exact ih (c + 1) _ p (List.mem_append_left _ h)

/-- Every entry the word loop adds to the fetch trace is a word of the range
whose file check failed (missing or empty file). -/
theorem runWords_fetched_sub (fetch : Nat → Nat → Bool × Nat)
    (fs : Nat → Nat → Option Nat) (v : Nat) :
    ∀ (ws : List Nat) (c : Nat) (st : RunState) (p : Nat × Nat),
      p ∈ (runWords fetch fs v ws c st).fetched →
      p ∈ st.fetched ∨ ∃ w, w ∈ ws ∧ p = (v, w) ∧ existingSize fs v w = none := by
  intro ws
  induction ws with
  | nil =>
    intro c st p h
    simp only [runWords] at h
    exact Or.inl h
  | cons w ws ih =>
    intro c st p h
    simp only [runWords] at h
    revert h
    split
    · intro h
      rcases ih 0 _ p h with h1 | ⟨w', hw', hp, hn⟩
      · exact Or.inl h1
      · exact Or.inr ⟨w', List.mem_cons_of_mem _ hw', hp, hn⟩
    · rename_i hnone
      split
      · intro h
        rcases ih 0 _ p h with h1 | ⟨w', hw', hp, hn⟩
        · rcases List.mem_append.mp h1 with h2 | h2
          · exact Or.inl h2
          · exact Or.inr ⟨w, List.mem_cons_self _ _, List.mem_singleton.mp h2, hnone⟩
        · exact Or.inr ⟨w', List.mem_cons_of_mem _ hw', hp, hn⟩
      · split
        · intro h
          rcases List.mem_append.mp h with h2 | h2
          · exact Or.inl h2
          · exact Or.inr ⟨w, List.mem_cons_self _ _, List.mem_singleton.mp h2, hnone⟩
        · intro h
          rcases ih (c + 1) _ p h with h1 | ⟨w', hw', hp, hn⟩
          · rcases List.mem_append.mp h1 with h2 | h2
            · exact Or.inl h2
            · exact Or.inr ⟨w, List.mem_cons_self _ _, List.mem_singleton.mp h2, hnone⟩
          · exact Or.inr ⟨w', List.mem_cons_of_mem _ hw', hp, hn⟩

/-- Claim C5 counterexample: with `resume=true`, a chapter of one verse and
six words where words 1-5 are absent and fail as not-found while word 6 is
already on disk with 10 bytes: the consecutive-not-found short circuit
abandons the verse after word 5, so the existing word 6 is neither counted
as successful nor has its size added (successful = 0, total_size = 0), even
though it is never fetched. -/
theorem c5_counterexample :
    downloadWordByWord (fun _ _ => (false, 0))
        (fun _ w => if w = 6 then some 10 else none) (fun _ => none)
        ⟨1, 1, 1, 1, 6⟩ none none none none true
      = some ⟨true, 6, 0, 5, 0, [(1, 1), (1, 2), (1, 3), (1, 4), (1, 5)], true⟩ ∧
    existingSize (fun _ w => if w = 6 then some 10 else none) 1 6 = some 10 := by
  constructor <;> decide

/-- Claim C5 (amended): a word whose computed file exists with size > 0 is
never fetched over the network, and — provided it is reached, i.e. not
abandoned by an earlier consecutive-not-found short-circuit in the same
verse — it is counted as successful with its on-disk byte size added: a
fully pre-populated prefix of a verse is consumed entirely by existence
skips, adding one success and the byte size per word and issuing no
request. -/
theorem c5_amended (fetch : Nat → Nat → Bool × Nat) (fs : Nat → Nat → Option Nat)
    (v : Nat) (ws₁ ws₂ : List Nat) (c : Nat) (st : RunState)
    (h : ∀ w ∈ ws₁, (existingSize fs v w).isSome = true) :
    runWords fetch fs v (ws₁ ++ ws₂) c st =
      runWords fetch fs v ws₂ (if ws₁.isEmpty then c else 0)
        ⟨st.successful + ws₁.length, st.failed,
         st.totalSize + (ws₁.map fun w => (existingSize fs v w).getD 0).sum,
         st.fetched, st.shortCircuited⟩ ∧
    ∀ w sz, existingSize fs v w = some sz →
      ((v, w) ∈ (runWords fetch fs v (ws₁ ++ ws₂) c st).fetched ↔ (v, w) ∈ st.fetched) := by
  constructor
  · induction ws₁ generalizing c st with
    | nil => simp
    | cons w ws₁ ih =>
      have hw := h w (List.mem_cons_self _ _)
      obtain ⟨sz, hsz⟩ := Option.isSome_iff_exists.mp hw
      have hrest : ∀ w' ∈ ws₁, (existingSize fs v w').isSome = true :=
        fun w' hw' => h w' (List.mem_cons_of_mem _ hw')
      simp only [List.cons_append, runWords, hsz, List.append_eq]
      rw [ih 0 _ hrest]
      have hc : (if ws₁.isEmpty then (0 : Nat) else 0) =
          (if (w :: ws₁).isEmpty then c else 0) := by
        simp
      rw [hc]
      congr 1
      simp only [List.map_cons, List.sum_cons, hsz, Option.getD_some, List.length_cons]
      simp only [RunState.mk.injEq]
      exact ⟨by omega, trivial, by omega, trivial, trivial⟩
  · intro w sz hsz
    constructor
    · intro hmem
      rcases runWords_fetched_sub fetch fs v _ c st _ hmem with h1 | ⟨w', _, hp, hn⟩
      · exact h1
      · have h2 : w = w' := congrArg Prod.snd hp
        subst h2
        rw [hsz] at hn
        simp at hn
    · intro hmem
      exact runWords_fetched_mono fetch fs v _ c st _ hmem

/-- Five consecutive failing words starting with the consecutive counter at
zero: the word loop records the five failures, logs their five fetches, sets
the short-circuit marker, and abandons the rest of the verse. -/
theorem runWords_five_fails (fetch : Nat → Nat → Bool × Nat)
    (fs : Nat → Nat → Option Nat) (v w1 w2 w3 w4 w5 : Nat) (rest : List Nat)
    (st : RunState)
    (e1 : existingSize fs v w1 = none) (f1 : (fetch v w1).1 = false)
    (e2 : existingSize fs v w2 = none) (f2 : (fetch v w2).1 = false)
    (e3 : existingSize fs v w3 = none) (f3 : (fetch v w3).1 = false)
    (e4 : existingSize fs v w4 = none) (f4 : (fetch v w4).1 = false)
    (e5 : existingSize fs v w5 = none) (f5 : (fetch v w5).1 = false) :
    runWords fetch fs v (w1 :: w2 :: w3 :: w4 :: w5 :: rest) 0 st =
      ⟨st.successful, st.failed + 5, st.totalSize,
       st.fetched ++ [(v, w1), (v, w2), (v, w3), (v, w4), (v, w5)], true⟩ := by
  simp [runWords, e1, f1, e2, f2, e3, f3, e4, f4, e5, f5, List.append_assoc,
    RunState.mk.injEq]

/-- Processing a prefix of words that all either exist on disk or download
successfully leaves the failure count, the short-circuit marker and (up to
the filtered fetch log) the trace unchanged, and hands the rest of the verse
to the loop with the consecutive counter reset to zero. -/
theorem runWords_clean_prefix (fetch : Nat → Nat → Bool × Nat)
    (fs : Nat → Nat → Option Nat) (v : Nat) (tail : List Nat) :
    ∀ (pre : List Nat) (st : RunState),
      (∀ w ∈ pre, (existingSize fs v w).isSome = true ∨ (fetch v w).1 = true) →
      ∃ S Z, runWords fetch fs v (pre ++ tail) 0 st =
        runWords fetch fs v tail 0
          ⟨S, st.failed, Z,
           st.fetched ++ (pre.filter fun w => (existingSize fs v w).isNone).map
             (fun w => (v, w)),
           st.shortCircuited⟩ := by
  intro pre
  induction pre with
  | nil =>
    intro st _
    exact ⟨st.successful, st.totalSize, by simp⟩
  | cons w pre ih =>
    intro st hall
    have htl : ∀ w' ∈ pre, (existingSize fs v w').isSome = true ∨ (fetch v w').1 = true :=
      fun w' hw' => hall w' (List.mem_cons_of_mem _ hw')
    cases hE : existingSize fs v w with
    | some sz =>
      obtain ⟨S, Z, hrec⟩ := ih ⟨st.successful + 1, st.failed, st.totalSize + sz,
        st.fetched, st.shortCircuited⟩ htl
      refine ⟨S, Z, ?_⟩
      simp only [List.cons_append, runWords, hE, List.append_eq]
      rw [hrec]
      congr 1
      simp [List.filter_cons, hE]
    | none =>
      have hf : (fetch v w).1 = true := by
        rcases hall w (List.mem_cons_self _ _) with h1 | h1
        · rw [hE] at h1; simp at h1
        · exact h1
      obtain ⟨S, Z, hrec⟩ := ih ⟨st.successful + 1, st.failed,
        st.totalSize + (fetch v w).2, st.fetched ++ [(v, w)], st.shortCircuited⟩ htl
      refine ⟨S, Z, ?_⟩
      simp only [List.cons_append, runWords, hE, hf, if_true, List.append_eq]
      rw [hrec]
      congr 1
      simp [List.filter_cons, hE, List.append_assoc]

/-- Claim C4: in word-by-word mode, five consecutive not-found words within
one verse (all earlier words of the verse having been skipped as existing or
downloaded successfully, so the consecutive counter — reset at the start of
the verse and after every success or existence-skip — stands at zero) make
the word loop record exactly those five failures, fetch nothing further in
that verse, set the short-circuit marker, and the verse loop then proceeds
with the remaining verses. -/
theorem c4_short_circuit (fetch : Nat → Nat → Bool × Nat)
    (fs : Nat → Nat → Option Nat) (v : Nat) (pre five rest : List Nat)
    (st : RunState)
    (hpre : ∀ w ∈ pre, (existingSize fs v w).isSome = true ∨ (fetch v w).1 = true)
    (hlen : five.length = 5)
    (hfive : ∀ w ∈ five, existingSize fs v w = none ∧ (fetch v w).1 = false) :
    (runWords fetch fs v (pre ++ (five ++ rest)) 0 st).failed = st.failed + 5 ∧
    (runWords fetch fs v (pre ++ (five ++ rest)) 0 st).shortCircuited = true ∧
    (runWords fetch fs v (pre ++ (five ++ rest)) 0 st).fetched =
      (st.fetched ++ (pre.filter fun w => (existingSize fs v w).isNone).map
        (fun w => (v, w))) ++ five.map (fun w => (v, w)) ∧
    ∀ (wc : Nat) (vs : List (Nat × Nat)) (st₀ : RunState),
      runVerses fetch fs none none none none ((v, wc) :: vs) st₀ =
        runVerses fetch fs none none none none vs
          (runWords fetch fs v (List.range' 1 wc) 0 st₀) := by
  obtain ⟨w1, w2, w3, w4, w5, rfl⟩ :
      ∃ a b c d e, five = [a, b, c, d, e] := by
    rcases five with _ | ⟨a, _ | ⟨b, _ | ⟨c, _ | ⟨d, _ | ⟨e, _ | ⟨f, t⟩⟩⟩⟩⟩⟩ <;>
      simp at hlen
    exact ⟨a, b, c, d, e, rfl⟩
  obtain ⟨S, Z, hmain⟩ := runWords_clean_prefix fetch fs v
    ([w1, w2, w3, w4, w5] ++ rest) pre st hpre
  have h1 := hfive w1 (by simp)
  have h2 := hfive w2 (by simp)
  have h3 := hfive w3 (by simp)
  have h4 := hfive w4 (by simp)
  have h5 := hfive w5 (by simp)
  rw [hmain, List.cons_append, List.cons_append, List.cons_append,
    List.cons_append, List.cons_append, List.nil_append,
    runWords_five_fails fetch fs v w1 w2 w3 w4 w5 rest _
      h1.1 h1.2 h2.1 h2.2 h3.1 h3.2 h4.1 h4.2 h5.1 h5.2]
  refine ⟨rfl, rfl, by simp [List.append_assoc], ?_⟩
  intro wc vs st₀
  simp [runVerses, skipLow, skipHigh, verseStartWord, verseEndWord, pyEq,
    Nat.add_sub_cancel]

/-- Claim C4 witness: two clean words, then five consecutive not-found
words, then two abandoned words. -/
theorem c4_short_circuit_witness :
    (runWords (fun _ w => (decide (w ≤ 2), 10)) (fun _ _ => none) 1
        ([1, 2] ++ ([3, 4, 5, 6, 7] ++ [8, 9])) 0 initRunState).failed = 5 ∧
    (runWords (fun _ w => (decide (w ≤ 2), 10)) (fun _ _ => none) 1
        ([1, 2] ++ ([3, 4, 5, 6, 7] ++ [8, 9])) 0 initRunState).shortCircuited = true ∧
    (runWords (fun _ w => (decide (w ≤ 2), 10)) (fun _ _ => none) 1
        ([1, 2] ++ ([3, 4, 5, 6, 7] ++ [8, 9])) 0 initRunState).fetched =
      [(1, 1), (1, 2), (1, 3), (1, 4), (1, 5), (1, 6), (1, 7)] :=
  ⟨(c4_short_circuit (fun _ w => (decide (w ≤ 2), 10)) (fun _ _ => none) 1
      [1, 2] [3, 4, 5, 6, 7] [8, 9] initRunState
      (by decide) (by decide) (by decide)).1,
   (c4_short_circuit (fun _ w => (decide (w ≤ 2), 10)) (fun _ _ => none) 1
      [1, 2] [3, 4, 5, 6, 7] [8, 9] initRunState
      (by decide) (by decide) (by decide)).2.1,
   (c4_short_circuit (fun _ w => (decide (w ≤ 2), 10)) (fun _ _ => none) 1
      [1, 2] [3, 4, 5, 6, 7] [8, 9] initRunState
      (by decide) (by decide) (by decide)).2.2.1⟩

/-- Claim C5 witness: a fully pre-populated two-word prefix is consumed by
existence skips with its byte sizes added, and a word with an existing
non-empty file never appears in the fetch trace. -/
theorem c5_amended_witness :
    runWords (fun _ _ => (true, 5)) (fun _ w => if w ≤ 2 then some 7 else none) 1
        ([1, 2] ++ [3]) 0 initRunState =
      runWords (fun _ _ => (true, 5)) (fun _ w => if w ≤ 2 then some 7 else none) 1
        [3] 0 ⟨2, 0, 14, [], false⟩ ∧
    ((1, 1) ∈ (runWords (fun _ _ => (true, 5))
        (fun _ w => if w ≤ 2 then some 7 else none) 1
        ([1, 2] ++ [3]) 0 initRunState).fetched ↔ (1, 1) ∈ initRunState.fetched) :=
  ⟨(c5_amended (fun _ _ => (true, 5)) (fun _ w => if w ≤ 2 then some 7 else none) 1
      [1, 2] [3] 0 initRunState (by decide)).1,
   (c5_amended (fun _ _ => (true, 5)) (fun _ w => if w ≤ 2 then some 7 else none) 1
      [1, 2] [3] 0 initRunState (by decide)).2 1 7 (by decide)⟩

/-- A verse strictly above a truthy `end_verse` bound stays above it for
every later (larger) verse id. -/
theorem skipHigh_mono (ev : Option Nat) (v u : Nat) (h : skipHigh ev v = true)
    (hvu : v < u) : skipHigh ev u = true := by
  cases ev with
  | none => simp [skipHigh] at h
  | some n =>
    simp only [skipHigh, Bool.and_eq_true, bne_iff_ne, decide_eq_true_eq] at h ⊢
    exact ⟨h.1, h.2.trans hvu⟩

/-- A planning pass over verses that are all skipped contributes zero. -/
theorem plan_skipped_zero (sv ev sw ew : Option Nat) :
    ∀ L : List (Nat × Nat), (∀ p ∈ L, skipLow sv p.1 || skipHigh ev p.1) →
      planTotal sv ev sw ew L = some 0 := by
  intro L
  induction L with
  | nil => intro _; rfl
  | cons p L ih =>
    rcases p with ⟨v, wc⟩
    intro hall
    have hp := hall (v, wc) (List.mem_cons_self _ _)
    simp only [planTotal, hp]
    exact ih fun q hq => hall q (List.mem_cons_of_mem _ hq)

/-- The execution loop over verses that are all skipped leaves the state
untouched and issues nothing. -/
theorem run_skipped_id (fetch : Nat → Nat → Bool × Nat)
    (fs : Nat → Nat → Option Nat) (sv ev sw ew : Option Nat) :
    ∀ (L : List (Nat × Nat)) (st : RunState),
      (∀ p ∈ L, skipLow sv p.1 || skipHigh ev p.1) →
      runVerses fetch fs sv ev sw ew L st = some st := by
  intro L
  induction L with
  | nil => intro st _; rfl
  | cons p L ih =>
    rcases p with ⟨v, wc⟩
    intro st hall
    by_cases hL : skipLow sv v = true
    · simp only [runVerses, hL, if_true]
      exact ih st fun q hq => hall q (List.mem_cons_of_mem _ hq)
    · have hH : skipHigh ev v = true := by
        have := hall (v, wc) (List.mem_cons_self _ _)
        simpa [hL] using this
      simp [runVerses, hL, hH]

/-- The verse loop never clears the short-circuit marker. -/
theorem runVerses_sc_mono (fetch : Nat → Nat → Bool × Nat)
    (fs : Nat → Nat → Option Nat) (sv ev sw ew : Option Nat) :
    ∀ (L : List (Nat × Nat)) (st st' : RunState),
      runVerses fetch fs sv ev sw ew L st = some st' →
      st.shortCircuited = true → st'.shortCircuited = true := by
  intro L
  induction L with
  | nil =>
    intro st st' h hsc
    simp only [runVerses, Option.some.injEq] at h
    rw [← h]; exact hsc
  | cons p L ih =>
    rcases p with ⟨v, wc⟩
    intro st st' h hsc
    simp only [runVerses] at h
    split at h
    · exact ih _ _ h hsc
    · split at h
      · simp only [Option.some.injEq] at h
        rw [← h]; exact hsc
      · split at h
        · exact ih _ _ h (runWords_sc_mono fetch fs _ _ _ _ hsc)
        · cases h

/-- The planning loop and the execution loop of `download_word_by_word` walk
the same verses with the same per-verse word ranges (the mapping's verse ids
being strictly ascending), so whenever planning yields a total the execution
loop yields a state whose `successful + failed` is bounded by that total,
with equality when no verse was short-circuited. -/
theorem plan_run_align (fetch : Nat → Nat → Bool × Nat)
    (fs : Nat → Nat → Option Nat) (sv ev sw ew : Option Nat) :
    ∀ L : List (Nat × Nat), L.Pairwise (fun p q => p.1 < q.1) →
    ∀ (st : RunState) (T : Nat), planTotal sv ev sw ew L = some T →
    ∃ st', runVerses fetch fs sv ev sw ew L st = some st' ∧
      st'.successful + st'.failed ≤ st.successful + st.failed + T ∧
      (st'.shortCircuited = false →
        st'.successful + st'.failed = st.successful + st.failed + T) := by
  intro L
  induction L with
  | nil =>
    intro _ st T h
    simp only [planTotal, Option.some.injEq] at h
    exact ⟨st, rfl, by omega, fun _ => by omega⟩
  | cons p L ih =>
    rcases p with ⟨v, wc⟩
    intro hpw st T h
    rcases List.pairwise_cons.mp hpw with ⟨hhead, htail⟩
    by_cases hL : skipLow sv v = true
    · simp only [planTotal, hL, Bool.true_or, if_true] at h
      simp only [runVerses, hL, if_true]
      exact ih htail st T h
    · by_cases hH : skipHigh ev v = true
      · simp only [planTotal, hL, hH, Bool.false_or, if_true] at h
        have hall : ∀ q ∈ L, skipLow sv q.1 || skipHigh ev q.1 := by
          intro q hq
          have := skipHigh_mono ev v q.1 hH (hhead q hq)
          simp [this]
        rw [plan_skipped_zero sv ev sw ew L hall] at h
        simp only [Option.some.injEq] at h
        subst h
        refine ⟨st, ?_, by omega, fun _ => by omega⟩
        simp [runVerses, hL, hH]
      · simp only [planTotal, hL, hH, Bool.or_self, if_false] at h
        cases hvs : verseStartWord sv sw v with
        | none => simp [planVerse, hvs] at h
        | some a =>
          cases hve : verseEndWord ev ew v wc with
          | none => simp [planVerse, hvs, hve] at h
          | some b =>
            simp only [planVerse, hvs, hve] at h
            cases hpt : planTotal sv ev sw ew L with
            | none => simp [hpt] at h
            | some T' =>
              rw [hpt] at h
              simp at h
              obtain ⟨st', hrun, hle, heq⟩ := ih htail
                (runWords fetch fs v (List.range' a (b + 1 - a)) 0 st) T' hpt
              refine ⟨st', ?_, ?_, ?_⟩
              · simp only [runVerses, hL, hH, if_false, hvs, hve]
                exact hrun
              · have hW := runWords_sum_le fetch fs v (List.range' a (b + 1 - a)) 0 st
                rw [List.length_range'] at hW
                omega
              · intro hsc
                have hWsc : (runWords fetch fs v (List.range' a (b + 1 - a)) 0 st).shortCircuited = false := by
                  cases hw : (runWords fetch fs v (List.range' a (b + 1 - a)) 0 st).shortCircuited
                  · rfl
                  · have := runVerses_sc_mono fetch fs sv ev sw ew L _ _ hrun hw
                    rw [this] at hsc; cases hsc
                have hWeq := runWords_sum_of_no_sc fetch fs v
                  (List.range' a (b + 1 - a)) 0 st hWsc
                rw [List.length_range'] at hWeq
                have := heq hsc
                omega

/-- The approximate mapping lists its verse ids in strictly ascending
order. -/
theorem ayahWordMapping_pairwise (s : Surah) :
    (ayahWordMapping s).Pairwise (fun p q => p.1 < q.1) := by
  unfold ayahWordMapping ayahList
  split
  · exact List.pairwise_map.mpr (by simpa using List.pairwise_lt_range' _ _)
  · exact List.Pairwise.nil.map _ (by intro a b h; exact h)

/-- Claim C9: every run of the orchestrator that returns a result
dictionary satisfies `0 ≤ successful + failed ≤ total_files`, and the sum
can fall short of `total_files` only when some verse's word loop was
abandoned by the consecutive-not-found short circuit. -/
theorem c9_invariant (fetch : Nat → Nat → Bool × Nat) (fs : Nat → Nat → Option Nat)
    (store : StateStore) (s : Surah) (sv ev sw ew : Option Nat) (resume : Bool)
    (res : WordResult)
    (h : downloadWordByWord fetch fs store s sv ev sw ew resume = some res) :
    res.successful_downloads + res.failed_downloads ≤ res.total_files ∧
    (res.shortCircuited = false →
      res.successful_downloads + res.failed_downloads = res.total_files) := by
  simp only [downloadWordByWord] at h
  split at h
  · cases h
  · split at h
    · cases h
    · split at h
      · cases h
      · rename_i x1 total hplan x2 stF hrun
        injection h with h'
        subst h'
        obtain ⟨st', hrun', hle, heq⟩ := plan_run_align fetch fs _ ev _ ew
          (ayahWordMapping s) (ayahWordMapping_pairwise s) initRunState total hplan
        rw [hrun] at hrun'
        injection hrun' with h2
        subst h2
        have hle' : stF.successful + stF.failed ≤ 0 + 0 + total := hle
        constructor
        · show stF.successful + stF.failed ≤ total
          omega
        · intro hsc
          show stF.successful + stF.failed = total
          have heq' : stF.successful + stF.failed = 0 + 0 + total := heq hsc
          omega

/-- Claim C9 witness: a two-word chapter downloaded fully. -/
theorem c9_invariant_witness :
    (WordResult.mk true 2 2 0 20 [(1, 1), (1, 2)] false).successful_downloads +
        (WordResult.mk true 2 2 0 20 [(1, 1), (1, 2)] false).failed_downloads ≤
      (WordResult.mk true 2 2 0 20 [(1, 1), (1, 2)] false).total_files ∧
    ((WordResult.mk true 2 2 0 20 [(1, 1), (1, 2)] false).shortCircuited = false →
      (WordResult.mk true 2 2 0 20 [(1, 1), (1, 2)] false).successful_downloads +
          (WordResult.mk true 2 2 0 20 [(1, 1), (1, 2)] false).failed_downloads =
        (WordResult.mk true 2 2 0 20 [(1, 1), (1, 2)] false).total_files) :=
  c9_invariant (fun _ _ => (true, 10)) (fun _ _ => none) (fun _ => none)
    ⟨1, 1, 1, 1, 2⟩ none none none none false
    (WordResult.mk true 2 2 0 20 [(1, 1), (1, 2)] false) (by decide)

/-- Claim C1 counterexample: requesting `start_verse = 5, end_verse = 3` on
a 7-verse chapter does not fail with any error: the orchestration returns a
normal result dictionary with `success = True`, zero planned files, zero
successes, zero failures and an empty fetch trace.  No `InvalidRange`
failure exists in the orchestration (`validate_download_range` is never
invoked by it). -/
theorem c1_counterexample :
    downloadWordByWord (fun _ _ => (true, 10)) (fun _ _ => none) (fun _ => none)
        ⟨1, 1, 7, 1, 29⟩ (some 5) (some 3) none none false
      = some ⟨true, 0, 0, 0, 0, [], false⟩ := by
  decide

/-- Claim C1 (amended): the orchestration performs no range validation and
raises no `InvalidRange` error.  For any request with
`start_verse > end_verse ≥ 1` it issues zero network fetches and returns a
normal result with `total_files = 0`, `successful = 0`, `failed = 0`. -/
theorem c1_amended (fetch : Nat → Nat → Bool × Nat) (fs : Nat → Nat → Option Nat)
    (store : StateStore) (s : Surah) (sw ew : Option Nat) (resume : Bool)
    (a b : Nat) (hmap : s.ayahLo ≤ s.ayahHi) (hb : 0 < b) (hba : b < a) :
    downloadWordByWord fetch fs store s (some a) (some b) sw ew resume
      = some ⟨true, 0, 0, 0, 0, [], false⟩ := by
  have hall : ∀ p ∈ ayahWordMapping s, skipLow (some a) p.1 || skipHigh (some b) p.1 := by
    intro p _
    by_cases hva : p.1 < a
    · have h1 : skipLow (some a) p.1 = true := by
        simp only [skipLow, Bool.and_eq_true, bne_iff_ne, decide_eq_true_eq]
        omega
      simp [h1]
    · have h1 : skipHigh (some b) p.1 = true := by
        simp only [skipHigh, Bool.and_eq_true, bne_iff_ne, decide_eq_true_eq]
        omega
      simp [h1]
  have hne : (ayahWordMapping s).isEmpty = false := by
    unfold ayahWordMapping ayahList totalAyahs
    rw [if_pos hmap]
    simp
  simp only [downloadWordByWord, hne, Option.isNone_some, Bool.and_false,
    Bool.false_eq_true, if_false]
  rw [plan_skipped_zero _ _ _ _ _ hall]
  rw [run_skipped_id fetch fs _ _ _ _ _ initRunState hall]
  rfl

/-- Claim C1 witness: the inverted range 5..3 with resume enabled and a
stored resume position still yields the zero result without error. -/
theorem c1_amended_witness :
    downloadWordByWord (fun _ _ => (true, 10)) (fun _ _ => none)
        (fun c => if c = 1 then some ⟨1, 2, some 3⟩ else none) ⟨1, 1, 7, 1, 29⟩
        (some 5) (some 3) none none true
      = some ⟨true, 0, 0, 0, 0, [], false⟩ :=
  c1_amended (fun _ _ => (true, 10)) (fun _ _ => none)
    (fun c => if c = 1 then some ⟨1, 2, some 3⟩ else none) ⟨1, 1, 7, 1, 29⟩
    none none true 5 3 (by decide) (by decide) (by decide)

/-- Claim C2 counterexample: a chapter with aggregate ranges verses 1-2 and
words 1-5 whose true per-verse word counts are [3, 2] (consistent with the
aggregate: 3 + 2 = 5).  For the sub-range verses 1..2 with explicit word
bounds 1..2, the source's planning total over the averaged mapping is 4,
while the spec's exact per-verse computation gives 5: the planned total is
an integer-division average, not the exact per-verse sum. -/
theorem c2_counterexample :
    planTotal (some 1) (some 2) (some 1) (some 2) (ayahWordMapping ⟨1, 1, 2, 1, 5⟩)
        = some 4 ∧
    specExactTotal [(1, 3), (2, 2)] 1 2 1 2 = 5 ∧
    ([(1, 3), (2, 2)].map Prod.snd).sum = totalWords ⟨1, 1, 2, 1, 5⟩ := by
  refine ⟨by decide, by decide, by decide⟩

/-- With no explicit bounds, the planning loop sums every verse's mapping
entry. -/
theorem planTotal_unbounded (L : List (Nat × Nat)) :
    planTotal none none none none L = some ((L.map Prod.snd).sum) := by
  induction L with
  | nil => rfl
  | cons p L ih =>
    rcases p with ⟨v, wc⟩
    simp only [planTotal, skipLow, skipHigh, planVerse, verseStartWord,
      verseEndWord, pyEq, Bool.or_self, Bool.false_eq_true, if_false]
    rw [ih]
    simp [Nat.add_sub_cancel]

/-- Claim C2 (amended): the planned total is computed from the approximate
averaged mapping — every verse is assigned `total_words // total_verses`
words except the last, which receives all remaining words — with explicit
word bounds applied at the boundary verses; there is no exact per-verse
table.  In aggregate the averaging is self-consistent: a full-chapter
request plans exactly the chapter's total word count. -/
theorem c2_amended (s : Surah) (h : s.ayahLo ≤ s.ayahHi) :
    ayahWordMapping s = (ayahList s).map (fun a =>
      (a, if a = s.ayahHi then totalWords s - wordsPerAyah s * (totalAyahs s - 1)
          else wordsPerAyah s)) ∧
    planTotal none none none none (ayahWordMapping s) = some (totalWords s) := by
  refine ⟨rfl, ?_⟩
  rw [planTotal_unbounded]
  congr 1
  unfold ayahWordMapping ayahList
  rw [if_pos h]
  rw [show totalAyahs s = (s.ayahHi - s.ayahLo) + 1 from rfl]
  rw [List.range'_concat]
  simp only [one_mul, Nat.add_sub_cancel]
  have hhi : s.ayahLo + (s.ayahHi - s.ayahLo) = s.ayahHi := by omega
  rw [hhi]
  rw [List.map_append, List.map_append, List.sum_append, List.map_map, List.map_map]
  have hconst : ∀ x ∈ List.range' s.ayahLo (s.ayahHi - s.ayahLo),
      (Prod.snd ∘ fun a =>
        (a, if a = s.ayahHi then totalWords s - wordsPerAyah s * (s.ayahHi - s.ayahLo)
            else wordsPerAyah s)) x = wordsPerAyah s := by
    intro x hx
    rcases List.mem_range'_1.mp hx with ⟨h1, h2⟩
    have hxne : x ≠ s.ayahHi := by omega
    simp [hxne]
  rw [List.map_congr_left hconst]
  simp only [List.map_map, Function.comp, List.map_cons, List.map_nil,
    List.sum_cons, List.sum_nil, if_pos rfl, ite_true]
  rw [List.map_const', List.sum_replicate, List.length_range', smul_eq_mul]
  have hle : wordsPerAyah s * (s.ayahHi - s.ayahLo) ≤ totalWords s := by
    calc wordsPerAyah s * (s.ayahHi - s.ayahLo)
        ≤ wordsPerAyah s * ((s.ayahHi - s.ayahLo) + 1) :=
          Nat.mul_le_mul_left _ (by omega)
      _ = wordsPerAyah s * totalAyahs s := rfl
      _ ≤ totalWords s := by
          rw [Nat.mul_comm]
          exact Nat.mul_div_le _ _
  rw [Nat.mul_comm (s.ayahHi - s.ayahLo) (wordsPerAyah s)]
  omega

/-- Claim C2 witness: the two-verse, five-word chapter plans exactly five
files for a full-chapter request, via the averaged mapping. -/
theorem c2_amended_witness :
    ayahWordMapping ⟨1, 1, 2, 1, 5⟩ = (ayahList ⟨1, 1, 2, 1, 5⟩).map (fun a =>
      (a, if a = (2 : Nat) then totalWords ⟨1, 1, 2, 1, 5⟩ -
            wordsPerAyah ⟨1, 1, 2, 1, 5⟩ * (totalAyahs ⟨1, 1, 2, 1, 5⟩ - 1)
          else wordsPerAyah ⟨1, 1, 2, 1, 5⟩)) ∧
    planTotal none none none none (ayahWordMapping ⟨1, 1, 2, 1, 5⟩) = some 5 :=
  c2_amended ⟨1, 1, 2, 1, 5⟩ (by decide)
